import Mathlib

/-!
Verification of the Turing-machine emulator (src/main.cpp) against its
natural-language specification.

The development shallowly embeds the program:

* the doubly-linked tape (`bi_list` cells with `left`/`right` pointers and
  the `curr` head pointer) becomes a `Tape` structure holding the list of
  materialized cell values in left-to-right order together with the head
  index `pos`;
* the C strings compared with `strcmp` become Lean `String`s, with a
  hand-rolled byte-wise lexicographic order `str_lt` mirroring
  `strcmp (a, b) < 0` (Lean's built-in `String` order does not reduce in
  the kernel);
* the `while` loops of `run_simulation`, `fill_states`,
  `init_tape_by_input` and `print_answer` become structural recursions,
  with the simulation loop driven by explicit fuel (the source loop can
  genuinely diverge);
* `new` never fails in the Lean heap, so allocation is modelled as always
  succeeding; the `AllocationError` paths of the source are consequently
  unreachable in the model and `move_carriage` is total;
* the interactive debug I/O (`scan_debug_command`, per-step printing) only
  affects what is printed between steps, never the machine state, and is
  not modelled; `run_simulation` is modelled on its release path.
-/

namespace TM

/-- Byte-wise lexicographic comparison of character lists, mirroring
`strcmp (a, b) < 0` on NUL-terminated C strings: a strict prefix is
smaller, otherwise the first differing character decides. -/
def chars_lt : List Char → List Char → Bool
  | [], [] => false
  | [], _ :: _ => true
  | _ :: _, [] => false
  | a :: as, b :: bs => if a < b then true else if b < a then false else chars_lt as bs

/-- The comparison `strcmp (a, b) < 0` lifted to Lean strings. -/
def str_lt (a b : String) : Bool := chars_lt a.data b.data

/-- The materialized part of the bidirectional tape.  `cells` lists the
values of the `bi_list` cells in left-to-right order; `pos` is the index
of the cell the head pointer `curr` designates. -/
structure Tape where
  cells : List Char
  pos : Nat
deriving DecidableEq

/-- `bi_list::get_value` at the head: the symbol under the carriage.
Out-of-range access cannot occur in the source (the head always sits on a
materialized cell); the default `'_'` is arbitrary. -/
def read (t : Tape) : Char := t.cells.getD t.pos '_'

/-- `bi_list::set_value` applied to the cell under the head: writing the
wildcard `'*'` returns without touching the cell, any other symbol is
stored. -/
def set_value (t : Tape) (v : Char) : Tape :=
  if v = '*' then t else { t with cells := t.cells.set t.pos v }

/-- `TM::move_carriage`: `'r'` moves the head right, materializing a fresh
default-`'_'` cell when no right neighbour exists; `'l'` symmetrically to
the left; any other direction (the stay move `'*'`) leaves the head in
place.  Allocation always succeeds in the model, so the function is
total. -/
def move_carriage (t : Tape) (d : Char) : Tape :=
  if d = 'r' then
    if t.pos + 1 < t.cells.length then { t with pos := t.pos + 1 }
    else { cells := t.cells ++ ['_'], pos := t.pos + 1 }
  else if d = 'l' then
    if t.pos = 0 then { cells := '_' :: t.cells, pos := 0 }
    else { t with pos := t.pos - 1 }
  else t

/-- `TM::move_carriage_to_beginning`: walk the head to the leftmost
materialized cell. -/
def move_carriage_to_beginning (t : Tape) : Tape := { t with pos := 0 }

/-- Value held by a freshly allocated `bi_list` cell after `set_value v`:
the default `'_'` when `v` is the wildcard, otherwise `v`. -/
def init_cell (v : Char) : Char := if v = '*' then '_' else v

/-- The `fscanf` loop of `TM::init_tape_by_input`: each character of the
remaining stream appends one fresh cell at the right end of the tape,
except `'\n'`, which is skipped. -/
def init_cells (acc : List Char) : List Char → List Char
  | [] => acc
  | c :: rest =>
    if c = '\n' then init_cells acc rest
    else init_cells (acc ++ [init_cell c]) rest

/-- `TM::init_tape_by_input` on a stream with first character `first` and
remainder `rest`: the first character is consumed before the loop and
always yields the first cell (its `'\n'` check is only in the loop), then
the loop processes `rest`, and finally the carriage returns to the
beginning. -/
def init_tape_by_input (first : Char) (rest : List Char) : Tape :=
  let cells := init_cells [init_cell first] rest
  move_carriage_to_beginning { cells := cells, pos := cells.length - 1 }

/-- The printing loop of `TM::print_answer`: walk the cells left to right,
keeping exactly the non-blank symbols. -/
def print_answer_loop : List Char → List Char
  | [] => []
  | c :: rest =>
    if c ≠ '_' then c :: print_answer_loop rest else print_answer_loop rest

/-- `TM::print_answer`: walk to the leftmost cell (index 0), then emit
every non-blank symbol in order. -/
def print_answer (t : Tape) : List Char := print_answer_loop t.cells

/-- One transition record, mirroring the `state` class of the source:
`<name> <in_symbol> <out_symbol> <move> <next_state>`. -/
structure state where
  name : String
  next_state : String
  in_symbol : Char
  out_symbol : Char
  move : Char
deriving DecidableEq

/-- The sorting comparator of `TM::fill_states`:
`strcmp (a.name, b.name) < 0 || (strcmp (a.name, b.name) == 0 && b.in_symbol == '*')`. -/
def comparator (a b : state) : Bool :=
  str_lt a.name b.name || (a.name == b.name && b.in_symbol == '*')

/-- Insertion of one record into a list already sorted by `comparator`. -/
def insert_state (a : state) : List state → List state
  | [] => [a]
  | b :: l => if comparator a b then a :: b :: l else b :: insert_state a l

/-- The `std::sort (states.begin (), states.end (), comparator)` call,
realized as an insertion sort: like `std::sort` it produces a permutation
of the input with no pair of elements out of order with respect to
`comparator`. -/
def sort_states (l : List state) : List state := l.foldr insert_state []

/-- The move-symbol validation of `TM::fill_states`:
`tmp.move != 'r' && tmp.move != 'l' && tmp.move != '*'` rejects the
record. -/
def invalid_move (c : Char) : Bool := c != 'r' && c != 'l' && c != '*'

/-- The `fscanf` loop of `TM::fill_states` over the already-scanned raw
records: the first record with an invalid move symbol aborts the load
(`none`), otherwise every record is pushed in order. -/
def fill_states_loop : List state → Option (List state)
  | [] => some []
  | r :: rest =>
    if invalid_move r.move then none
    else
      match fill_states_loop rest with
      | none => none
      | some l => some (r :: l)

/-- `TM::fill_states`: validate and collect the records, then sort the
table with `comparator`. -/
def fill_states (records : List state) : Option (List state) :=
  (fill_states_loop records).map sort_states

/-- The `find_if` predicate of `TM::run_simulation`:
`strcmp (curr_state.name, state.name) == 0 &&
 (curr_state.in_symbol == state.in_symbol || state.in_symbol == '*')`. -/
def rule_matches (n : String) (c : Char) (st : state) : Bool :=
  n == st.name && (c == st.in_symbol || st.in_symbol == '*')

/-- The `std::find_if` call of `TM::run_simulation`: the first rule of the
(sorted) table matching the current state name and symbol. -/
def find_rule (l : List state) (n : String) (c : Char) : Option state :=
  l.find? (rule_matches n c)

/-- The next-state computation of `TM::run_simulation`:
`(strcmp (iter->next_state, "*") == 0) ? curr_state.name : iter->next_state`. -/
def next_name (r : state) (n : String) : String :=
  if r.next_state = "*" then n else r.next_state

/-- Outcome of the simulation loop.  `success` carries the final
`print_answer` output; `noRule` carries the state name and symbol printed
by the `There is no state ...` diagnostic; `fuelOut` is the model's fuel
exhaustion (the source loop simply keeps running). -/
inductive RunResult where
  | success (out : List Char)
  | noRule (n : String) (c : Char)
  | fuelOut
deriving DecidableEq

/-- The `while (strcmp (curr_state.name, "halt") != 0)` loop of
`TM::run_simulation`, with explicit fuel: look up a rule for the current
state name `n` and symbol `c`, fail with `noRule` if there is none,
otherwise write the out-symbol, move the carriage, compute the next state
name and re-read the symbol under the head. -/
def run_loop (states : List state) : Nat → String → Char → Tape → RunResult
  | 0, n, _, t =>
      if n = "halt" then RunResult.success (print_answer t) else RunResult.fuelOut
  | fuel + 1, n, c, t =>
      if n = "halt" then RunResult.success (print_answer t)
      else
        match find_rule states n c with
        | none => RunResult.noRule n c
        | some r =>
            let t2 := move_carriage (set_value t r.out_symbol) r.move
            run_loop states fuel (next_name r n) (read t2) t2

/-- `TM::run_simulation` on its release path: start in state `"0"` with
the symbol under the (leftmost-positioned) head. -/
def run_simulation (states : List state) (fuel : Nat) (t : Tape) : RunResult :=
  run_loop states fuel "0" (read t) t

/-- The engine-relevant behaviour of `main`: load the table (a failed
load exits with `-1` before any simulation, modelled as `none`), build the
tape, run the simulation.  The returned `Int` is the process exit status:
`main` discards the value `run_simulation` returns and falls through to
`return 0`, so the status after a run is `0` whatever the run's outcome. -/
def main_run (records : List state) (first : Char) (rest : List Char) (fuel : Nat) :
    Option (RunResult × Int) :=
  match fill_states records with
  | none => none
  | some sts => some (run_simulation sts fuel (init_tape_by_input first rest), 0)

/-- A tape mutation performed during a run: a `set_value` write or a
carriage move. -/
inductive TapeOp where
  | write (v : Char)
  | move (d : Char)

/-- Application of one tape mutation. -/
def apply_op (t : Tape) : TapeOp → Tape
  | TapeOp.write v => set_value t v
  | TapeOp.move d => move_carriage t d

/-- Cell count predicted by the spec sentence "each character becomes one
tape cell in left-to-right order except a line-terminator character,
which is skipped without producing a cell": the number of non-newline
characters of the stream. -/
def spec_cell_count (stream : List Char) : Nat :=
  (stream.filter (fun c => c != '\n')).length

theorem init_cells_eq (s : List Char) :
    ∀ acc, init_cells acc s = acc ++ (s.filter (fun c => c != '\n')).map init_cell := by
  induction s with
  | nil => intro acc; simp [init_cells]
  | cons c rest ih =>
    intro acc
    by_cases hc : c = '\n'
    · simp [init_cells, hc, List.filter_cons, ih]
    · simp [init_cells, hc, List.filter_cons, ih]

theorem init_cell_ne_star (v : Char) : init_cell v ≠ '*' := by
  unfold init_cell
  split
  · decide
  · assumption

theorem print_answer_loop_eq (l : List Char) :
    print_answer_loop l = l.filter (fun c => c != '_') := by
  induction l with
  | nil => rfl
  | cons c rest ih =>
    by_cases hc : c = '_'
    · simp [print_answer_loop, hc, List.filter_cons, ih]
    · simp [print_answer_loop, hc, List.filter_cons, ih]

theorem mem_insert_state (x a : state) (l : List state) :
    x ∈ insert_state a l ↔ x = a ∨ x ∈ l := by
  induction l with
  | nil => simp [insert_state]
  | cons b l ih =>
    by_cases h : comparator a b
    · simp [insert_state, h]
    · simp [insert_state, h, ih]
      tauto

theorem mem_sort_states (x : state) (l : List state) (h : x ∈ l) :
    x ∈ sort_states l := by
  induction l with
  | nil => cases h
  | cons a l ih =>
    show x ∈ insert_state a (sort_states l)
    rcases List.mem_cons.mp h with h1 | h1
    · exact (mem_insert_state x a (sort_states l)).mpr (Or.inl h1)
    · exact (mem_insert_state x a (sort_states l)).mpr (Or.inr (ih h1))

theorem fill_states_loop_eq_some (records : List state)
    (h : ∀ r ∈ records, invalid_move r.move = false) :
    fill_states_loop records = some records := by
  induction records with
  | nil => rfl
  | cons a rest ih =>
    have ha := h a (List.mem_cons_self a rest)
    have hrest := ih fun r hr => h r (List.mem_cons_of_mem a hr)
    simp [fill_states_loop, ha, hrest]

theorem fill_states_loop_eq_none (records : List state)
    (h : ∃ r ∈ records, invalid_move r.move = true) :
    fill_states_loop records = none := by
  induction records with
  | nil => obtain ⟨r, hr, _⟩ := h; cases hr
  | cons a rest ih =>
    by_cases ha : invalid_move a.move = true
    · simp [fill_states_loop, ha]
    · obtain ⟨r, hr, hrmove⟩ := h
      have hrrest : r ∈ rest := by
        rcases List.mem_cons.mp hr with h1 | h1
        · exact absurd (h1 ▸ hrmove) ha
        · exact h1
      have := ih ⟨r, hrrest, hrmove⟩
      simp [fill_states_loop, ha, this]

theorem move_carriage_pos_lt (t : Tape) (h : t.pos < t.cells.length) (d : Char) :
    (move_carriage t d).pos < (move_carriage t d).cells.length := by
  unfold move_carriage
  split_ifs with h1 h2 h3 h4 <;> simp_all
  all_goals omega

theorem foldl_apply_op_no_star (ops : List TapeOp) (t : Tape)
    (h : ∀ c ∈ t.cells, c ≠ '*') :
    ∀ c ∈ (ops.foldl apply_op t).cells, c ≠ '*' := by
  induction ops generalizing t with
  | nil => exact h
  | cons op ops ih =>
    simp only [List.foldl_cons]
    refine ih (apply_op t op) ?_
    cases op with
    | write v =>
      simp only [apply_op, set_value]
      split
      · exact h
      · intro c hc
        rcases List.mem_or_eq_of_mem_set hc with h1 | h1
        · exact h c h1
        · subst h1; assumption
    | move d =>
      simp only [apply_op, move_carriage]
      split_ifs
      · exact h
      · intro c hc
        rcases List.mem_append.mp hc with h1 | h1
        · exact h c h1
        · simp at h1; subst h1; decide
      · intro c hc
        rcases List.mem_cons.mp hc with h1 | h1
        · subst h1; decide
        · exact h c h1
      · exact h
      · exact h

/-- C1: in a transition table holding, for state `n`, both a rule with the
concrete in-symbol `c` (`c ≠ '*'`) and a rule with the wildcard in-symbol
`'*'`, and sorted as `std::sort` with `comparator` leaves it (no pair of
entries out of order), the `find_if` lookup `find_rule` selects a rule
with the concrete in-symbol `c`, never the wildcard rule. -/
theorem find_rule_prefers_exact_match
    (l : List state) (n : String) (c : Char) (hc : c ≠ '*')
    (hsorted : List.Pairwise (fun a b => comparator b a = false) l)
    (r w : state)
    (hr : r ∈ l) (hrn : r.name = n) (hri : r.in_symbol = c)
    (hw : w ∈ l) (hwn : w.name = n) (hwi : w.in_symbol = '*') :
    ∃ m, find_rule l n c = some m ∧ m.name = n ∧ m.in_symbol = c := by
  induction l with
  | nil => cases hr
  | cons a l ih =>
    rw [List.pairwise_cons] at hsorted
    by_cases ha : rule_matches n c a = true
    · refine ⟨a, List.find?_cons_of_pos l ha, ?_, ?_⟩
      · have h2 := ha
        simp [rule_matches] at h2
        exact h2.1.symm
      · simp [rule_matches] at ha
        obtain ⟨han, hsym⟩ := ha
        rcases hsym with hs | hs
        · exact hs.symm
        · exfalso
          rcases List.mem_cons.mp hr with h1 | hrl
          · subst h1
            rw [hri] at hs
            exact hc hs
          · have hcmp := hsorted.1 r hrl
            simp [comparator, hrn, ← han, hs] at hcmp
    · have hrm : rule_matches n c r = true := by simp [rule_matches, hrn, hri]
      have hwm : rule_matches n c w = true := by simp [rule_matches, hwn, hwi]
      have hrl : r ∈ l := by
        rcases List.mem_cons.mp hr with h1 | h1
        · exact absurd (h1 ▸ hrm) ha
        · exact h1
      have hwl : w ∈ l := by
        rcases List.mem_cons.mp hw with h1 | h1
        · exact absurd (h1 ▸ hwm) ha
        · exact h1
      show ∃ m, List.find? (rule_matches n c) (a :: l) = some m ∧ m.name = n ∧ m.in_symbol = c
      rw [List.find?_cons_of_neg l ha]
      exact ih hsorted.2 hrl hwl

theorem find_rule_prefers_exact_match_witness :
    ∃ m, find_rule [⟨"0", "halt", '1', '1', 'r'⟩, ⟨"0", "0", '*', '_', 'l'⟩] "0" '1'
        = some m ∧ m.name = "0" ∧ m.in_symbol = '1' :=
  find_rule_prefers_exact_match
    [⟨"0", "halt", '1', '1', 'r'⟩, ⟨"0", "0", '*', '_', 'l'⟩] "0" '1' (by decide)
    (by decide)
    ⟨"0", "halt", '1', '1', 'r'⟩ ⟨"0", "0", '*', '_', 'l'⟩
    (by decide) (by decide) (by decide) (by decide) (by decide) (by decide)

/-- C2: evidence for the exit-status defect.  On the spec's Scenario B
(table `0 1 1 r halt`, input `"0"`), the run fails with
`NoMatchingRule ("0", '0')` — the diagnostic the source prints — yet
`main` discards `run_simulation`'s return value and exits with status `0`,
not the non-zero completion signal the spec requires. -/
theorem run_error_exit_status_zero :
    main_run [⟨"0", "halt", '1', '1', 'r'⟩] '0' [] 5
      = some (RunResult.noRule "0" '0', 0) := by decide

/-- C3, counterexample: a line terminator as the very first character of
the input stream is not skipped — it produces a tape cell, so the cell
count differs from the spec-predicted count of non-terminator
characters. -/
theorem init_tape_leading_newline_cex :
    (init_tape_by_input '\n' ['a']).cells.length ≠ spec_cell_count ('\n' :: ['a']) := by
  decide

/-- C3, amended: the first character of the stream always produces the
first cell (even a line terminator); each later character produces one
cell in left-to-right order except line terminators, which are skipped;
the head ends on the leftmost cell.  (`init_cell` stores the character,
except `'*'`, which leaves the fresh cell blank.) -/
theorem init_tape_one_cell_per_char (first : Char) (rest : List Char) :
    (init_tape_by_input first rest).cells
      = init_cell first :: (rest.filter (fun c => c != '\n')).map init_cell ∧
    (init_tape_by_input first rest).pos = 0 := by
  constructor
  · simp [init_tape_by_input, move_carriage_to_beginning, init_cells_eq]
  · rfl

/-- C4: writing the wildcard `'*'` through `set_value` leaves the tape —
in particular the cell under the head — unchanged, whatever it holds;
writing any other symbol makes the cell under the head hold exactly that
symbol. -/
theorem set_value_wildcard_skip (t : Tape) (v : Char) (h : t.pos < t.cells.length) :
    set_value t '*' = t ∧ (v ≠ '*' → read (set_value t v) = v) := by
  constructor
  · simp [set_value]
  · intro hv
    simp [set_value, hv, read, List.getD, List.getElem?_set_self, h]

theorem set_value_wildcard_skip_witness :
    set_value ⟨['a', 'b'], 1⟩ '*' = ⟨['a', 'b'], 1⟩ ∧
    ('z' ≠ '*' → read (set_value ⟨['a', 'b'], 1⟩ 'z') = 'z') :=
  set_value_wildcard_skip ⟨['a', 'b'], 1⟩ 'z' (by decide)

/-- C5: when no rule of the table matches the current state name and
symbol, the simulation loop stops at once with the `noRule` error carrying
that state name and symbol; no further step runs and no final tape
rendering is produced. -/
theorem no_matching_rule_terminal
    (states : List state) (fuel : Nat) (n : String) (c : Char) (t : Tape)
    (hn : n ≠ "halt") (hf : find_rule states n c = none) :
    run_loop states (fuel + 1) n c t = RunResult.noRule n c ∧
    ∀ out, run_loop states (fuel + 1) n c t ≠ RunResult.success out := by
  have h1 : run_loop states (fuel + 1) n c t = RunResult.noRule n c := by
    simp [run_loop, hn, hf]
  refine ⟨h1, fun out => ?_⟩
  rw [h1]
  simp

theorem no_matching_rule_terminal_witness :
    run_loop [⟨"0", "halt", '1', '1', 'r'⟩] 5 "0" '0' ⟨['0'], 0⟩
      = RunResult.noRule "0" '0' ∧
    run_loop [⟨"0", "halt", '1', '1', 'r'⟩] 5 "0" '0' ⟨['0'], 0⟩
      ≠ RunResult.success ['0'] :=
  ⟨(no_matching_rule_terminal [⟨"0", "halt", '1', '1', 'r'⟩] 4 "0" '0' ⟨['0'], 0⟩
      (by decide) (by decide)).1,
   (no_matching_rule_terminal [⟨"0", "halt", '1', '1', 'r'⟩] 4 "0" '0' ⟨['0'], 0⟩
      (by decide) (by decide)).2 ['0']⟩

/-- C6: in a simulation step applying rule `r`, the state name passed to
the next loop iteration is the unchanged current name when
`r.next_state = "*"`, and `r.next_state` itself otherwise. -/
theorem next_state_wildcard_keeps_name
    (states : List state) (fuel : Nat) (n : String) (c : Char) (t : Tape) (r : state)
    (hn : n ≠ "halt") (hf : find_rule states n c = some r) :
    (r.next_state = "*" →
        run_loop states (fuel + 1) n c t
          = run_loop states fuel n
              (read (move_carriage (set_value t r.out_symbol) r.move))
              (move_carriage (set_value t r.out_symbol) r.move)) ∧
    (r.next_state ≠ "*" →
        run_loop states (fuel + 1) n c t
          = run_loop states fuel r.next_state
              (read (move_carriage (set_value t r.out_symbol) r.move))
              (move_carriage (set_value t r.out_symbol) r.move)) := by
  constructor <;> intro h <;> simp [run_loop, hn, hf, next_name, h]

theorem next_state_wildcard_keeps_name_witness :
    run_loop [⟨"0", "*", '1', '0', 'r'⟩] 1 "0" '1' ⟨['1'], 0⟩
      = run_loop [⟨"0", "*", '1', '0', 'r'⟩] 0 "0"
          (read (move_carriage (set_value ⟨['1'], 0⟩ '0') 'r'))
          (move_carriage (set_value ⟨['1'], 0⟩ '0') 'r') :=
  (next_state_wildcard_keeps_name [⟨"0", "*", '1', '0', 'r'⟩] 0 "0" '1' ⟨['1'], 0⟩
      ⟨"0", "*", '1', '0', 'r'⟩ (by decide) (by decide)).1 (by decide)

/-- C7: a record whose move symbol is outside `{'l', 'r', '*'}` makes the
table load fail, and then `main` exits before any simulation; when every
record's move symbol is valid, loading succeeds and every record is in the
resulting table. -/
theorem fill_states_validates_moves (records : List state) :
    ((∃ r ∈ records, invalid_move r.move = true) →
        fill_states records = none ∧
        ∀ first rest fuel, main_run records first rest fuel = none) ∧
    ((∀ r ∈ records, invalid_move r.move = false) →
        ∃ l, fill_states records = some l ∧ ∀ r ∈ records, r ∈ l) := by
  constructor
  · intro h
    have hl := fill_states_loop_eq_none records h
    have hf : fill_states records = none := by simp [fill_states, hl]
    exact ⟨hf, fun first rest fuel => by simp [main_run, hf]⟩
  · intro h
    have hl := fill_states_loop_eq_some records h
    refine ⟨sort_states records, by simp [fill_states, hl], ?_⟩
    exact fun r hr => mem_sort_states r records hr

theorem fill_states_validates_moves_witness :
    (fill_states [⟨"q", "halt", '1', '1', 'x'⟩] = none ∧
      main_run [⟨"q", "halt", '1', '1', 'x'⟩] 'a' [] 3 = none) ∧
    (∃ l, fill_states [⟨"q", "halt", '1', '1', 'r'⟩] = some l ∧
      ∀ r ∈ [⟨"q", "halt", '1', '1', 'r'⟩], r ∈ l) :=
  ⟨⟨((fill_states_validates_moves [⟨"q", "halt", '1', '1', 'x'⟩]).1
        ⟨⟨"q", "halt", '1', '1', 'x'⟩, by decide, by decide⟩).1,
    ((fill_states_validates_moves [⟨"q", "halt", '1', '1', 'x'⟩]).1
        ⟨⟨"q", "halt", '1', '1', 'x'⟩, by decide, by decide⟩).2 'a' [] 3⟩,
   (fill_states_validates_moves [⟨"q", "halt", '1', '1', 'r'⟩]).2
      (by decide)⟩

/-- C8: `print_answer` emits, left to right over the materialized cells,
exactly the non-blank symbols: it equals the tape content with every
blank `'_'` cell removed. -/
theorem print_answer_omits_blanks (t : Tape) :
    print_answer t = t.cells.filter (fun c => c != '_') :=
  print_answer_loop_eq t.cells

/-- C9: starting from any tape whose head sits on a materialized cell, any
sequence of carriage moves (left, right or stay) keeps the head on a
materialized cell — a fresh blank cell is materialized on demand at either
end — so `read` and `set_value` never touch an unmaterialized cell and
repeated moves never fail for lack of a cell. -/
theorem head_stays_materialized (t : Tape) (h : t.pos < t.cells.length)
    (ds : List Char) :
    (ds.foldl move_carriage t).pos < (ds.foldl move_carriage t).cells.length := by
  induction ds generalizing t with
  | nil => exact h
  | cons d ds ih =>
    simp only [List.foldl_cons]
    exact ih (move_carriage t d) (move_carriage_pos_lt t h d)

theorem head_stays_materialized_witness :
    (['l', 'l', 'r', 'r', 'r'].foldl move_carriage ⟨['_'], 0⟩).pos
      < (['l', 'l', 'r', 'r', 'r'].foldl move_carriage ⟨['_'], 0⟩).cells.length :=
  head_stays_materialized ⟨['_'], 0⟩ (by decide) ['l', 'l', 'r', 'r', 'r']

/-- C10: no materialized cell of a tape built by `init_tape_by_input` and
then mutated by any sequence of writes and carriage moves ever holds the
wildcard `'*'`; in particular a `'*'` in the input stream leaves its fresh
cell holding the blank `'_'`. -/
theorem no_cell_holds_wildcard (first : Char) (rest : List Char) (ops : List TapeOp) :
    (∀ c ∈ (ops.foldl apply_op (init_tape_by_input first rest)).cells, c ≠ '*') ∧
    (first = '*' → (init_tape_by_input first rest).cells.getD 0 ' ' = '_') := by
  have hcells : (init_tape_by_input first rest).cells
      = init_cell first :: (rest.filter (fun c => c != '\n')).map init_cell := by
    simp [init_tape_by_input, move_carriage_to_beginning, init_cells_eq]
  constructor
  · refine foldl_apply_op_no_star ops _ ?_
    intro c hcmem
    rw [hcells] at hcmem
    rcases List.mem_cons.mp hcmem with h1 | h1
    · exact h1 ▸ init_cell_ne_star first
    · obtain ⟨x, _, hx⟩ := List.mem_map.mp h1
      exact hx ▸ init_cell_ne_star x
  · intro hf
    rw [hcells, hf]
    rfl

theorem no_cell_holds_wildcard_witness :
    (init_tape_by_input '*' ['a']).cells.getD 0 ' ' = '_' :=
  (no_cell_holds_wildcard '*' ['a'] []).2 rfl

end TM
